import Mathlib

/-!
Verification of the cursor-based keyset pagination protocol of the
youtube-clone repository, together with the comment-create mutation and the
InfiniteScroll fetch trigger.

The embedding follows the drizzle queries of
`src/modules/comments/server/procedure.ts`,
`src/modules/studio/server/procedures.ts` and
`src/modules/suggestions/server/procedures.ts`:
a `getMany` call filters the backing table by the router-specific predicate,
conjoins the cursor predicate
`lt(updatedAt, c.updatedAt) OR (eq(updatedAt, c.updatedAt) AND lt(id, c.id))`,
orders by `desc(updatedAt), desc(id)`, fetches `limit + 1` rows, drops the
sentinel row and derives `nextCursor` from the last returned item.

Timestamps and ids are modelled as naturals (Postgres compares `timestamp`
and `uuid` columns by a total order; only the order matters here).
-/

namespace YTClone

open List

/-- Pagination cursor: the `{id, updatedAt}` of the last item of the
previous page, as validated by `z.object({ id: z.uuid(), updatedAt: z.date() })`. -/
structure Cursor where
  id : Nat
  updatedAt : Nat
deriving DecidableEq, Repr

/-- Strict ascending lexicographic comparison of two `(updatedAt, id)` sort
keys.  `kLT x y` is exactly the SQL condition
`updatedAt < y.updatedAt OR (updatedAt = y.updatedAt AND id < y.id)`
evaluated at a row with key `x`. -/
def kLT (x y : Nat × Nat) : Bool :=
  decide (x.1 < y.1) || (x.1 == y.1 && decide (x.2 < y.2))

theorem kLT_iff (x y : Nat × Nat) :
    kLT x y = true ↔ (x.1 < y.1 ∨ (x.1 = y.1 ∧ x.2 < y.2)) := by
  simp [kLT]

theorem kLT_eq_false_iff (x y : Nat × Nat) :
    kLT x y = false ↔ (y.1 < x.1 ∨ (x.1 = y.1 ∧ y.2 ≤ x.2)) := by
  simp [kLT]
  omega

theorem kLT_irrefl (x : Nat × Nat) : kLT x x = false := by
  rw [kLT_eq_false_iff]
  omega

theorem kLT_asymm {x y : Nat × Nat} (h : kLT x y = true) : kLT y x = false := by
  rw [kLT_iff] at h
  rw [kLT_eq_false_iff]
  omega

theorem kLT_trans {x y z : Nat × Nat} (h1 : kLT x y = true) (h2 : kLT y z = true) :
    kLT x z = true := by
  rw [kLT_iff] at h1 h2 ⊢
  omega

theorem kLT_connex {x y : Nat × Nat} (h1 : kLT x y = false) (h2 : kLT y x = false) :
    x = y := by
  rw [kLT_eq_false_iff] at h1 h2
  have hx : x.1 = y.1 ∧ x.2 = y.2 := by omega
  exact Prod.ext hx.1 hx.2

theorem kLT_ge_trans {x y z : Nat × Nat} (h1 : kLT x y = false) (h2 : kLT y z = false) :
    kLT x z = false := by
  rw [kLT_eq_false_iff] at h1 h2 ⊢
  omega

section Engine

variable {α : Type} (key : α → Nat × Nat)

/-- The descending composite order `orderBy(desc(updatedAt), desc(id))`:
`a` may precede `b` when the key of `a` is not lexicographically below the
key of `b`. -/
def rGE (a b : α) : Prop := kLT (key a) (key b) = false

instance rGE.instDecidable : DecidableRel (rGE key) :=
  fun a b => inferInstanceAs (Decidable (kLT (key a) (key b) = false))

/-- The cursor predicate of the where-clause: the row sits strictly after the
cursor position in the descending `(updatedAt, id)` order. -/
def afterCursor (c : Cursor) (r : α) : Bool := kLT (key r) (c.updatedAt, c.id)

/-- Optional-cursor form: `cursor ? or(lt(...), and(eq(...), lt(...))) : undefined`. -/
def afterOpt (c : Option Cursor) (r : α) : Bool :=
  match c with
  | none => true
  | some cu => afterCursor key cu r

/-- Full where-clause of a `getMany` query: router-specific filter AND
cursor predicate. -/
def matchRow (pred : α → Bool) (c : Option Cursor) (r : α) : Bool :=
  pred r && afterOpt key c r

/-- The database sort `orderBy(desc(updatedAt), desc(id))`. -/
def sortDesc (l : List α) : List α := List.insertionSort (rGE key) l

/-- `data`: the rows produced by the query — where-clause, descending order,
`.limit(limit + 1)` (one sentinel row to detect a further page). -/
def pageData (rows : List α) (pred : α → Bool) (c : Option Cursor) (limit : Nat) :
    List α :=
  (sortDesc key (rows.filter (matchRow key pred c))).take (limit + 1)

/-- The single-shot full result set for a filter: all matching rows in
descending `(updatedAt, id)` order. -/
def sortedMatches (rows : List α) (pred : α → Bool) : List α :=
  sortDesc key (rows.filter pred)

/-- A returned page: `items` plus the `nextCursor` handed back to the client. -/
structure Page (β : Type) where
  items : List β
  nextCursor : Option Cursor
deriving DecidableEq, Repr

/-- `nextCursor` payload built from the last returned item:
`{ id: lastItem.id, updatedAt: lastItem.updatedAt }`. -/
def cursorOf (r : α) : Cursor := ⟨(key r).2, (key r).1⟩

/-- Error outcomes of a procedure call.  `notFound` and `badRequest` model the
thrown `TRPCError`s; `typeError` models the JavaScript `TypeError` that would
be raised by reading `.id` of an `undefined` `lastItem`. -/
inductive Err where
  | notFound
  | badRequest
  | typeError
deriving DecidableEq, Repr

/-- The tail of every `getMany`, with the JavaScript failure mode made
explicit: `hasMore = data.length > limit`, `items = hasMore ?
data.slice(0, -1) : data`, and when `hasMore` the `nextCursor` is built from
`items[items.length - 1]` — reading `.id` there is a `TypeError` when `items`
is empty. -/
def fetchPage (rows : List α) (pred : α → Bool) (c : Option Cursor) (limit : Nat) :
    Except Err (Page α) :=
  if limit < (pageData key rows pred c limit).length then
    match (pageData key rows pred c limit).dropLast.getLast? with
    | some last => .ok ⟨(pageData key rows pred c limit).dropLast, some (cursorOf key last)⟩
    | none => .error .typeError
  else
    .ok ⟨pageData key rows pred c limit, none⟩

/-- Total companion of `fetchPage` (the page it returns whenever it does not
crash; `fetchPage_eq_ok` below shows the two agree for every valid `limit`). -/
def fetchPageT (rows : List α) (pred : α → Bool) (c : Option Cursor) (limit : Nat) :
    Page α :=
  if limit < (pageData key rows pred c limit).length then
    ⟨(pageData key rows pred c limit).dropLast,
      ((pageData key rows pred c limit).dropLast.getLast?).elim none
        (fun last => some (cursorOf key last))⟩
  else
    ⟨pageData key rows pred c limit, none⟩

/-- Chained pagination: starting from a cursor, repeatedly call the page
fetch and follow `nextCursor` until it is `null`, concatenating the pages'
items in fetch order.  `fuel` bounds the number of round trips. -/
def paginate (rows : List α) (pred : α → Bool) (limit : Nat) :
    Nat → Option Cursor → List α
  | 0, _ => []
  | fuel + 1, c =>
    let p := fetchPageT key rows pred c limit
    p.items ++ (match p.nextCursor with
      | none => []
      | some c2 => paginate rows pred limit fuel (some c2))

/-- Ids are globally unique (`id` is a `uuid` primary key). -/
def idsNodup (rows : List α) : Prop :=
  (rows.map (fun r => (key r).2)).Nodup

/-- Strict descending sortedness by the composite key. -/
def StrictDesc (l : List α) : Prop :=
  l.Pairwise (fun a b => kLT (key b) (key a) = true)

theorem sortDesc_perm (l : List α) : sortDesc key l ~ l :=
  List.perm_insertionSort _ l

theorem sortDesc_sorted (l : List α) : (sortDesc key l).Sorted (rGE key) := by
  haveI : IsTotal α (rGE key) := ⟨by
    intro a b
    cases hab : kLT (key a) (key b) with
    | false => exact Or.inl hab
    | true => exact Or.inr (kLT_asymm hab)⟩
  haveI : IsTrans α (rGE key) := ⟨fun a b c hab hbc => kLT_ge_trans hab hbc⟩
  exact List.sorted_insertionSort _ l

theorem idsNodup_sublist {l₁ l₂ : List α} (h : l₁ <+ l₂) (hn : idsNodup key l₂) :
    idsNodup key l₁ :=
  List.Nodup.sublist (List.Sublist.map _ h) hn

theorem idsNodup_perm {l₁ l₂ : List α} (h : l₁ ~ l₂) (hn : idsNodup key l₁) :
    idsNodup key l₂ :=
  (h.map _).nodup hn

theorem strictDesc_of_sorted_nodup {l : List α} (hs : l.Sorted (rGE key))
    (hn : idsNodup key l) : StrictDesc key l := by
  have hn2 : (l.map (fun r => (key r).2)).Pairwise (fun a b => a ≠ b) := hn
  have hpk : l.Pairwise (fun a b => (key a).2 ≠ (key b).2) := List.pairwise_map.mp hn2
  have hsp : l.Pairwise (rGE key) := hs
  refine (hsp.and hpk).imp ?_
  intro a b hab
  cases hba : kLT (key b) (key a) with
  | false => exact absurd (congrArg Prod.snd (kLT_connex hab.1 hba)) hab.2
  | true => rfl

theorem strictDesc_eq_of_perm {l₁ l₂ : List α} (hp : l₁ ~ l₂)
    (h1 : StrictDesc key l₁) (h2 : StrictDesc key l₂) : l₁ = l₂ := by
  haveI : IsAntisymm α (fun a b => kLT (key b) (key a) = true) := ⟨by
    intro a b hab hba
    exact absurd ((kLT_asymm hab).symm.trans hba) Bool.false_ne_true⟩
  exact List.eq_of_perm_of_sorted hp h1 h2

theorem sortedMatches_strict (rows : List α) (pred : α → Bool)
    (hid : idsNodup key rows) : StrictDesc key (sortedMatches key rows pred) :=
  strictDesc_of_sorted_nodup key (sortDesc_sorted key _)
    (idsNodup_perm key (sortDesc_perm key _).symm
      (idsNodup_sublist key (List.filter_sublist rows) hid))

theorem sortedMatches_perm (rows : List α) (pred : α → Bool) :
    sortedMatches key rows pred ~ rows.filter pred :=
  sortDesc_perm key _

/-- Filtering then sorting equals sorting the filter-matching rows and then
restricting to the rows after the cursor: the cursor predicate commutes with
the descending sort. -/
theorem sort_filter_comm (rows : List α) (pred : α → Bool) (c : Option Cursor)
    (hid : idsNodup key rows) :
    sortDesc key (rows.filter (matchRow key pred c)) =
      (sortedMatches key rows pred).filter (afterOpt key c) := by
  apply strictDesc_eq_of_perm key
  · calc sortDesc key (rows.filter (matchRow key pred c))
        ~ rows.filter (matchRow key pred c) := sortDesc_perm key _
      _ = (rows.filter pred).filter (afterOpt key c) := by
          rw [List.filter_filter]
          exact List.filter_congr (fun a _ => by
            unfold matchRow; rw [Bool.and_comm])
      _ ~ (sortedMatches key rows pred).filter (afterOpt key c) :=
          List.Perm.filter _ (sortedMatches_perm key rows pred).symm
  · exact strictDesc_of_sorted_nodup key (sortDesc_sorted key _)
      (idsNodup_perm key (sortDesc_perm key _).symm
        (idsNodup_sublist key (List.filter_sublist rows) hid))
  · exact List.Pairwise.filter _ (sortedMatches_strict key rows pred hid)

theorem afterCursor_cursorOf (x : α) (r : α) :
    afterCursor key (cursorOf key x) r = kLT (key r) (key x) := by
  unfold afterCursor cursorOf
  simp

/-- On a strictly descending list, filtering by "strictly after the cursor of
`x`" yields exactly the part of the list that follows `x`. -/
theorem filter_after_split (F A B : List α) (x : α) (hs : StrictDesc key F)
    (hsplit : F = A ++ x :: B) :
    F.filter (afterCursor key (cursorOf key x)) = B := by
  subst hsplit
  have hpa := List.pairwise_append.mp hs
  rw [List.filter_append]
  have hA : A.filter (afterCursor key (cursorOf key x)) = [] := by
    rw [List.filter_eq_nil_iff]
    intro a ha
    rw [afterCursor_cursorOf]
    have hxa : kLT (key x) (key a) = true :=
      hpa.2.2 a ha x (List.mem_cons_self x B)
    simp [kLT_asymm hxa]
  have hB : (x :: B).filter (afterCursor key (cursorOf key x)) = B := by
    rw [List.filter_cons]
    rw [afterCursor_cursorOf, kLT_irrefl]
    simp only [Bool.false_eq_true, if_false]
    rw [List.filter_eq_self]
    intro b hb
    rw [afterCursor_cursorOf]
    exact (List.pairwise_cons.mp hpa.2.1).1 b hb
  rw [hA, hB, List.nil_append]

theorem pageData_eq (rows : List α) (pred : α → Bool) (c : Option Cursor)
    (limit : Nat) (hid : idsNodup key rows) :
    pageData key rows pred c limit =
      ((sortedMatches key rows pred).filter (afterOpt key c)).take (limit + 1) := by
  unfold pageData
  rw [sort_filter_comm key rows pred c hid]

/-- When at most `limit` rows remain after the cursor, the page carries all
of them and `nextCursor` is `null`. -/
theorem fetchPageT_last (rows : List α) (pred : α → Bool) (c : Option Cursor)
    (limit : Nat) (hid : idsNodup key rows)
    (hle : ((sortedMatches key rows pred).filter (afterOpt key c)).length ≤ limit) :
    fetchPageT key rows pred c limit =
      ⟨(sortedMatches key rows pred).filter (afterOpt key c), none⟩ := by
  have hdata : pageData key rows pred c limit =
      (sortedMatches key rows pred).filter (afterOpt key c) := by
    rw [pageData_eq key rows pred c limit hid]
    exact take_of_length_le (by omega)
  unfold fetchPageT
  rw [hdata]
  rw [if_neg (by omega)]

/-- When more than `limit` rows remain after the cursor, the page carries the
first `limit` of them and `nextCursor` is built from the last of those. -/
theorem fetchPageT_more (rows : List α) (pred : α → Bool) (c : Option Cursor)
    (limit : Nat) (hid : idsNodup key rows) (hl : 1 ≤ limit)
    (hmore : limit < ((sortedMatches key rows pred).filter (afterOpt key c)).length) :
    ∃ x, (((sortedMatches key rows pred).filter (afterOpt key c)).take limit).getLast? = some x ∧
      fetchPageT key rows pred c limit =
        ⟨((sortedMatches key rows pred).filter (afterOpt key c)).take limit,
          some (cursorOf key x)⟩ := by
  set G := (sortedMatches key rows pred).filter (afterOpt key c) with hG
  have hdata : pageData key rows pred c limit = G.take (limit + 1) := by
    rw [pageData_eq key rows pred c limit hid]
  have hdlen : (G.take (limit + 1)).length = limit + 1 := by
    rw [length_take]
    exact Nat.min_eq_left (by omega)
  have hdrop : (G.take (limit + 1)).dropLast = G.take limit := by
    rw [dropLast_eq_take, hdlen, take_take]
    congr 1
    omega
  have hlen : (G.take limit).length = limit := by
    rw [length_take]
    exact Nat.min_eq_left (by omega)
  have hne : G.take limit ≠ [] := by
    intro h
    rw [h] at hlen
    simp at hlen
    omega
  obtain ⟨x, hx⟩ := Option.isSome_iff_exists.mp (getLast?_isSome.mpr hne)
  refine ⟨x, hx, ?_⟩
  unfold fetchPageT
  rw [hdata, hdrop, if_pos (by omega), hx]
  rfl

/-- The items of a page are always the first `limit` rows strictly after the
cursor, whether or not a sentinel row was fetched. -/
theorem fetchPageT_items (rows : List α) (pred : α → Bool) (c : Option Cursor)
    (limit : Nat) (hid : idsNodup key rows) (hl : 1 ≤ limit) :
    (fetchPageT key rows pred c limit).items =
      ((sortedMatches key rows pred).filter (afterOpt key c)).take limit := by
  by_cases hmore :
      limit < ((sortedMatches key rows pred).filter (afterOpt key c)).length
  · obtain ⟨x, hx, hpage⟩ := fetchPageT_more key rows pred c limit hid hl hmore
    rw [hpage]
  · rw [fetchPageT_last key rows pred c limit hid (by omega)]
    show (sortedMatches key rows pred).filter (afterOpt key c) = _
    exact (take_of_length_le (by omega)).symm

/-- The throwing model agrees with the total model for every `limit ≥ 1`:
the `lastItem.id` access never hits `undefined`. -/
theorem fetchPage_eq_ok (rows : List α) (pred : α → Bool) (c : Option Cursor)
    (limit : Nat) (hl : 1 ≤ limit) :
    fetchPage key rows pred c limit = .ok (fetchPageT key rows pred c limit) := by
  unfold fetchPage fetchPageT
  by_cases h : limit < (pageData key rows pred c limit).length
  · rw [if_pos h, if_pos h]
    have hlen : (pageData key rows pred c limit).dropLast.length =
        (pageData key rows pred c limit).length - 1 := length_dropLast _
    have hne : (pageData key rows pred c limit).dropLast ≠ [] := by
      intro hq
      rw [hq] at hlen
      simp at hlen
      omega
    obtain ⟨last, hlast⟩ := Option.isSome_iff_exists.mp (getLast?_isSome.mpr hne)
    rw [hlast]
    rfl
  · rw [if_neg h, if_neg h]

/-- Chained pagination invariant: if the rows strictly after the current
cursor form the suffix `R` of the full sorted result set, then the rest of
the traversal returns exactly `R`. -/
theorem paginate_eq (rows : List α) (pred : α → Bool) (limit : Nat)
    (hl : 1 ≤ limit) (hid : idsNodup key rows) :
    ∀ (fuel : Nat) (c : Option Cursor) (P R : List α),
      sortedMatches key rows pred = P ++ R →
      (sortedMatches key rows pred).filter (afterOpt key c) = R →
      R.length ≤ fuel * limit →
      paginate key rows pred limit fuel c = R := by
  intro fuel
  induction fuel with
  | zero =>
    intro c P R hPR hfil hlen
    have hR : R = [] := List.eq_nil_of_length_eq_zero (by omega)
    subst hR
    rfl
  | succ n ih =>
    intro c P R hPR hfil hlen
    have hFs : StrictDesc key (sortedMatches key rows pred) :=
      sortedMatches_strict key rows pred hid
    by_cases hmore : limit < R.length
    · obtain ⟨x, hx, hpage⟩ := fetchPageT_more key rows pred c limit hid hl
        (by rw [hfil]; exact hmore)
      rw [hfil] at hx hpage
      have hne : R.take limit ≠ [] := by
        intro h
        have : (R.take limit).length = limit := by
          rw [length_take]
          exact Nat.min_eq_left (by omega)
        rw [h] at this
        simp at this
        omega
      have hxlast : R.take limit = (R.take limit).dropLast ++ [x] := by
        have h1 := getLast?_eq_getLast (R.take limit) hne
        rw [h1] at hx
        have h2 : (R.take limit).getLast hne = x := Option.some.inj hx
        rw [← h2]
        exact (dropLast_concat_getLast hne).symm
      have hsplit : sortedMatches key rows pred =
          (P ++ (R.take limit).dropLast) ++ x :: R.drop limit := by
        rw [hPR, append_assoc]
        congr 1
        rw [← singleton_append, ← append_assoc, ← hxlast, take_append_drop]
      have hfil2 : (sortedMatches key rows pred).filter
          (afterOpt key (some (cursorOf key x))) = R.drop limit := by
        have : afterOpt key (some (cursorOf key x)) = afterCursor key (cursorOf key x) := rfl
        rw [this]
        exact filter_after_split key _ _ _ x hFs hsplit
      have hrec : paginate key rows pred limit n (some (cursorOf key x)) = R.drop limit := by
        apply ih (some (cursorOf key x)) (P ++ R.take limit) (R.drop limit)
        · rw [hPR]
          rw [append_assoc]
          rw [take_append_drop]
        · exact hfil2
        · rw [length_drop]
          have : (n + 1) * limit = n * limit + limit := by ring
          omega
      show (fetchPageT key rows pred c limit).items ++ _ = R
      rw [hpage]
      simp only
      rw [hrec]
      exact take_append_drop limit R
    · have hpage := fetchPageT_last key rows pred c limit hid
        (by rw [hfil]; omega)
      rw [hfil] at hpage
      show (fetchPageT key rows pred c limit).items ++ _ = R
      rw [hpage]
      simp only
      exact append_nil R

end Engine

/-! ## Concrete collections and routers -/

/-- A row of `commentsTable` as selected by the comments router.  `parentId`
is the nullable self-reference distinguishing top-level comments (`null`)
from replies. -/
structure CommentRow where
  id : Nat
  videoId : Nat
  parentId : Option Nat
  userId : Nat
  content : String
  updatedAt : Nat
deriving DecidableEq, Repr

/-- Composite sort key `(updatedAt, id)` of a comment. -/
def commentKey (cr : CommentRow) : Nat × Nat := (cr.updatedAt, cr.id)

/-- Where-clause of `commentsRouter.getMany` apart from the cursor:
`eq(commentsTable.videoId, videoId)` and
`parentId ? eq(commentsTable.parentId, parentId) : isNull(commentsTable.parentId)`;
the `innerJoin(usersTable, eq(commentsTable.userId, usersTable.id))` keeps
exactly the rows whose author exists in `usersTable`. -/
def commentsPred (users : List Nat) (videoId : Nat) (parentId : Option Nat)
    (cr : CommentRow) : Bool :=
  (cr.videoId == videoId) &&
    (match parentId with
      | some p => cr.parentId == some p
      | none => cr.parentId == none) &&
    users.contains cr.userId

/-- The `totalCount` aggregate of `commentsRouter.getMany`: a count over
`commentsTable` scoped by `videoId` and the same parentId clause, with no
join and no cursor. -/
def commentsTotalCount (comments : List CommentRow) (videoId : Nat)
    (parentId : Option Nat) : Nat :=
  (comments.filter (fun cr =>
    (cr.videoId == videoId) &&
      (match parentId with
        | some p => cr.parentId == some p
        | none => cr.parentId == none))).length

/-- `commentsRouter.getMany`: no existence check on `videoId` or `parentId`
is performed; the call is the pagination query over the filtered rows plus
the independent `totalCount` query. -/
def commentsGetMany (comments : List CommentRow) (users : List Nat)
    (videoId : Nat) (parentId : Option Nat) (c : Option Cursor) (limit : Nat) :
    Except Err (Page CommentRow × Nat) :=
  (fetchPage commentKey comments (commentsPred users videoId parentId) c limit).map
    (fun page => (page, commentsTotalCount comments videoId parentId))

/-- The `select().where(inArray(commentsTable.id, parentId ? [parentId] : []))`
lookup of `commentsRouter.create`: the parent comment when a `parentId` was
supplied, otherwise nothing. -/
def findParent (comments : List CommentRow) (parentId : Option Nat) :
    Option CommentRow :=
  match parentId with
  | some p => comments.find? (fun cr => cr.id == p)
  | none => none

/-- `commentsRouter.create`: replying to a nonexistent comment is
`NOT_FOUND`; replying to a comment that itself has a non-null `parentId` is
`BAD_REQUEST`; otherwise the new row is inserted. -/
def commentsCreate (comments : List CommentRow) (userId videoId : Nat)
    (content : String) (parentId : Option Nat) (newId now : Nat) :
    Except Err (List CommentRow) :=
  if (findParent comments parentId).isNone && parentId.isSome then
    .error .notFound
  else if (match findParent comments parentId with
      | some e => e.parentId.isSome
      | none => false) && parentId.isSome then
    .error .badRequest
  else
    .ok (comments ++ [⟨newId, videoId, parentId, userId, content, now⟩])

/-- The reply tree reachable through `parentId` is at most two levels deep:
every comment that some other comment designates as its parent is itself a
top-level comment. -/
def twoLevel (comments : List CommentRow) : Prop :=
  ∀ c ∈ comments, ∀ p, c.parentId = some p →
    ∀ pc ∈ comments, pc.id = p → pc.parentId = none

/-- Video visibility (`pgEnum("video_visibility", ["public", "private"])`). -/
inductive Visibility where
  | pub
  | priv
deriving DecidableEq, Repr

/-- A row of `videoTable` as used by the studio and suggestions routers. -/
structure VideoRow where
  id : Nat
  uploaderId : Nat
  categoryId : Option Nat
  visibility : Visibility
  updatedAt : Nat
deriving DecidableEq, Repr

/-- Composite sort key `(updatedAt, id)` of a video. -/
def videoKey (v : VideoRow) : Nat × Nat := (v.updatedAt, v.id)

/-- `studioRouter.getMany`: the authenticated uploader's own videos,
`eq(videoTable.uploaderId, userId)` plus the cursor clause. -/
def studioGetMany (videos : List VideoRow) (userId : Nat) (c : Option Cursor)
    (limit : Nat) : Except Err (Page VideoRow) :=
  fetchPage videoKey videos (fun v => v.uploaderId == userId) c limit

/-- Where-clause of `suggestionsRouter.getMany` apart from the cursor:
public visibility, `existingVideo.categoryId ? eq(videoTable.categoryId,
existingVideo.categoryId) : undefined`, exclusion of the reference video
itself, and the inner join on the uploading user. -/
def suggestionsPred (users : List Nat) (videoId : Nat)
    (refCategory : Option Nat) (v : VideoRow) : Bool :=
  (v.visibility == Visibility.pub) &&
    (match refCategory with
      | some cid => v.categoryId == some cid
      | none => true) &&
    !(v.id == videoId) &&
    users.contains v.uploaderId

/-- `suggestionsRouter.getMany`: the existence check on the reference video
first (`NOT_FOUND` when it is absent), then pagination over the suggestion
predicate built from the found video's `categoryId`. -/
def suggestionsGetMany (videos : List VideoRow) (users : List Nat)
    (videoId : Nat) (c : Option Cursor) (limit : Nat) :
    Except Err (Page VideoRow) :=
  match videos.find? (fun v => v.id == videoId) with
  | none => .error .notFound
  | some existingVideo =>
      fetchPage videoKey videos
        (suggestionsPred users videoId existingVideo.categoryId) c limit

/-! ## InfiniteScroll trigger -/

/-- The props of the `InfiniteScroll` component at one render, together with
the intersection state produced by `useIntersectionObserver` (whose
`isIntersecting` state starts at `false`). -/
structure ScrollProps where
  isManual : Bool
  hasNextPage : Bool
  isFetchingNextPage : Bool
  isIntersecting : Bool
deriving DecidableEq, Repr

/-- The condition guarding the effect body:
`isIntersecting && hasNextPage && !isFetchingNextPage && !isManual`. -/
def scrollGuard (p : ScrollProps) : Bool :=
  p.isIntersecting && p.hasNextPage && !p.isFetchingNextPage && !p.isManual

/-- The `fetchNextPage` invocations along a sequence of rendered prop
snapshots: the `useEffect` body runs after the first render and after every
render at which the dependency array `[isIntersecting, hasNextPage,
isFetchingNextPage, isManual, fetchNextPage]` changed, and it calls
`fetchNextPage` exactly when the guard holds at that snapshot. -/
def invocations : Option ScrollProps → List ScrollProps → List ScrollProps
  | _, [] => []
  | none, p :: rest =>
      (if scrollGuard p then [p] else []) ++ invocations (some p) rest
  | some q, p :: rest =>
      (if (p != q) && scrollGuard p then [p] else []) ++ invocations (some p) rest

/-- Number of not-visible → visible transitions of the sentinel along a
snapshot sequence, starting from visibility state `prevVis`. -/
def visTransitions : Bool → List ScrollProps → Nat
  | _, [] => 0
  | prevVis, p :: rest =>
      (if !prevVis && p.isIntersecting then 1 else 0) +
        visTransitions p.isIntersecting rest

/-- A render trace in which the sentinel stays visible throughout: the first
fetch starts, completes (the `isFetchingNextPage` prop goes `true` then back
to `false`), and the sentinel never leaves the viewport. -/
def steadyVisibleTrace : List ScrollProps :=
  [⟨false, true, false, true⟩, ⟨false, true, true, true⟩, ⟨false, true, false, true⟩]

/-! ## Claims -/

/-- **C1.** For every fixed filter and every static backing collection with
globally unique ids, the concatenation, in fetch order, of the items of all
pages obtained by chaining the page fetch from `cursor = null` through each
returned `nextCursor` until it is `null` equals the single-shot full result
set for that filter sorted by `(updatedAt desc, id desc)`; in particular no
item id appears twice across pages, and no matching row is omitted.  The
comments, studio and suggestions `getMany` procedures are all instances of
this engine (`commentsPred`, `eq(uploaderId)`, `suggestionsPred`). -/
theorem chained_pages_cover_all {α : Type} (key : α → Nat × Nat)
    (rows : List α) (pred : α → Bool) (limit fuel : Nat)
    (hl : 1 ≤ limit) (hid : idsNodup key rows) (hfuel : rows.length ≤ fuel) :
    paginate key rows pred limit fuel none = sortedMatches key rows pred ∧
      idsNodup key (paginate key rows pred limit fuel none) := by
  have hlen : (sortedMatches key rows pred).length ≤ fuel * limit := by
    have h1 : (sortedMatches key rows pred).length = (rows.filter pred).length :=
      (sortedMatches_perm key rows pred).length_eq
    have h2 : (rows.filter pred).length ≤ rows.length := length_filter_le _ _
    have h3 : fuel ≤ fuel * limit := Nat.le_mul_of_pos_right fuel (by omega)
    omega
  have hmain : paginate key rows pred limit fuel none = sortedMatches key rows pred := by
    apply paginate_eq key rows pred limit hl hid fuel none [] (sortedMatches key rows pred)
    · rfl
    · exact filter_eq_self.mpr (fun a _ => rfl)
    · exact hlen
  refine ⟨hmain, ?_⟩
  rw [hmain]
  exact idsNodup_perm key (sortedMatches_perm key rows pred).symm
    (idsNodup_sublist key (filter_sublist rows) hid)

/-- Witness for C1 at a concrete comment collection: two top-level comments
for video 10, page size 1, two round trips. -/
theorem chained_pages_cover_all_witness :
    1 ≤ 1 ∧
      idsNodup commentKey [⟨1, 10, none, 5, "a", 100⟩, ⟨2, 10, none, 5, "b", 90⟩] ∧
      (paginate commentKey [⟨1, 10, none, 5, "a", 100⟩, ⟨2, 10, none, 5, "b", 90⟩]
            (commentsPred [5] 10 none) 1 2 none =
          sortedMatches commentKey
            [⟨1, 10, none, 5, "a", 100⟩, ⟨2, 10, none, 5, "b", 90⟩]
            (commentsPred [5] 10 none) ∧
        idsNodup commentKey
          (paginate commentKey [⟨1, 10, none, 5, "a", 100⟩, ⟨2, 10, none, 5, "b", 90⟩]
            (commentsPred [5] 10 none) 1 2 none)) :=
  ⟨by decide, by unfold idsNodup; decide,
    chained_pages_cover_all commentKey
      [⟨1, 10, none, 5, "a", 100⟩, ⟨2, 10, none, 5, "b", 90⟩]
      (commentsPred [5] 10 none) 1 2 (by decide)
      (by unfold idsNodup; decide) (by decide)⟩

/-- **C2.** The cursored where-clause selects exactly the filter-matching
rows whose composite key sorts strictly after the cursor in descending
`(updatedAt, id)` order, i.e. rows with `updatedAt < cursor.updatedAt`, or
`updatedAt = cursor.updatedAt` and `id < cursor.id`; and when two rows share
an `updatedAt` and a page boundary is issued at the higher-id row, the
traversal continuing from that cursor contains the lower-id row and never
repeats the higher-id row. -/
theorem cursor_boundary_exact {α : Type} (key : α → Nat × Nat)
    (rows : List α) (pred : α → Bool) (limit : Nat) (c : Cursor)
    (hl : 1 ≤ limit) (hid : idsNodup key rows) :
    (∀ r ∈ rows, (matchRow key pred (some c) r = true ↔
      (pred r = true ∧ ((key r).1 < c.updatedAt ∨
        ((key r).1 = c.updatedAt ∧ (key r).2 < c.id))))) ∧
    (∀ a b, a ∈ rows → b ∈ rows → pred a = true → pred b = true →
      (key a).1 = (key b).1 → (key a).2 < (key b).2 →
      ∀ fuel, rows.length ≤ fuel →
        a ∈ paginate key rows pred limit fuel (some (cursorOf key b)) ∧
        b ∉ paginate key rows pred limit fuel (some (cursorOf key b))) := by
  constructor
  · intro r _
    unfold matchRow afterOpt afterCursor
    simp [kLT_iff]
  · intro a b ha hb hpa hpb heq hlt fuel hfuel
    have hFs : StrictDesc key (sortedMatches key rows pred) :=
      sortedMatches_strict key rows pred hid
    have hbF : b ∈ sortedMatches key rows pred :=
      (sortedMatches_perm key rows pred).mem_iff.mpr (mem_filter.mpr ⟨hb, hpb⟩)
    have haF : a ∈ sortedMatches key rows pred :=
      (sortedMatches_perm key rows pred).mem_iff.mpr (mem_filter.mpr ⟨ha, hpa⟩)
    obtain ⟨A, B, hsplit⟩ := append_of_mem hbF
    have hfil : (sortedMatches key rows pred).filter
        (afterOpt key (some (cursorOf key b))) = B := by
      have h0 : afterOpt key (some (cursorOf key b)) =
          afterCursor key (cursorOf key b) := rfl
      rw [h0]
      exact filter_after_split key _ _ _ b hFs hsplit
    have hlenB : B.length ≤ fuel * limit := by
      have h1 : (sortedMatches key rows pred).length = (rows.filter pred).length :=
        (sortedMatches_perm key rows pred).length_eq
      have h2 : (rows.filter pred).length ≤ rows.length := length_filter_le _ _
      have h3 : fuel ≤ fuel * limit := Nat.le_mul_of_pos_right fuel (by omega)
      have h4 : (sortedMatches key rows pred).length = A.length + (B.length + 1) := by
        rw [hsplit]
        simp [length_append]
      omega
    have hpag : paginate key rows pred limit fuel (some (cursorOf key b)) = B := by
      apply paginate_eq key rows pred limit hl hid fuel _ (A ++ [b]) B
      · rw [hsplit, append_assoc]
        rfl
      · exact hfil
      · exact hlenB
    rw [hpag]
    have hpa2 := hsplit ▸ hFs
    have hparts := List.pairwise_append.mp hpa2
    have hab : kLT (key a) (key b) = true := by
      rw [kLT_iff]
      omega
    constructor
    · rcases mem_append.mp (hsplit ▸ haF) with hA | hxB
      · exfalso
        have h5 : kLT (key a) (key b) = false :=
          kLT_asymm (hparts.2.2 a hA b (mem_cons_self b B))
        rw [hab] at h5
        exact Bool.noConfusion h5
      · rcases mem_cons.mp hxB with hEq | hB
        · exfalso
          rw [hEq] at hlt
          omega
        · exact hB
    · intro hbB
      have := (List.pairwise_cons.mp hparts.2.1).1 b hbB
      rw [kLT_irrefl] at this
      exact Bool.false_ne_true this

/-- Witness for C2: two comments sharing `updatedAt = 100`, ids 1 and 2, for
video 10; the cursor is issued at the higher-id comment. -/
theorem cursor_boundary_exact_witness :
    1 ≤ 1 ∧
      idsNodup commentKey [⟨1, 10, none, 5, "a", 100⟩, ⟨2, 10, none, 5, "b", 100⟩] ∧
      ((⟨1, 10, none, 5, "a", 100⟩ : CommentRow) ∈
          paginate commentKey
            [⟨1, 10, none, 5, "a", 100⟩, ⟨2, 10, none, 5, "b", 100⟩]
            (commentsPred [5] 10 none) 1 2
            (some (cursorOf commentKey ⟨2, 10, none, 5, "b", 100⟩)) ∧
        (⟨2, 10, none, 5, "b", 100⟩ : CommentRow) ∉
          paginate commentKey
            [⟨1, 10, none, 5, "a", 100⟩, ⟨2, 10, none, 5, "b", 100⟩]
            (commentsPred [5] 10 none) 1 2
            (some (cursorOf commentKey ⟨2, 10, none, 5, "b", 100⟩))) :=
  ⟨by decide, by unfold idsNodup; decide,
    (cursor_boundary_exact commentKey
        [⟨1, 10, none, 5, "a", 100⟩, ⟨2, 10, none, 5, "b", 100⟩]
        (commentsPred [5] 10 none) 1 ⟨0, 0⟩ (by decide)
        (by unfold idsNodup; decide)).2
      ⟨1, 10, none, 5, "a", 100⟩ ⟨2, 10, none, 5, "b", 100⟩
      (by decide) (by decide) (by decide) (by decide) (by decide) (by decide)
      2 (by decide)⟩

/-- **C3.** For a filter with exactly `limit` matching rows, the cursorless
call returns all of them and `nextCursor = null`; with at least `limit + 1`
matching rows it returns exactly `limit` items and a non-null `nextCursor`
equal to the `{id, updatedAt}` pair of the last returned item (the sentinel
row is dropped before returning). -/
theorem page_limit_nextCursor {α : Type} (key : α → Nat × Nat)
    (rows : List α) (pred : α → Bool) (limit : Nat)
    (hl : 1 ≤ limit) (hid : idsNodup key rows) :
    ((rows.filter pred).length = limit →
      fetchPage key rows pred none limit = .ok ⟨sortedMatches key rows pred, none⟩) ∧
    (limit + 1 ≤ (rows.filter pred).length →
      ∃ last,
        ((sortedMatches key rows pred).take limit).getLast? = some last ∧
        fetchPage key rows pred none limit =
          .ok ⟨(sortedMatches key rows pred).take limit, some (cursorOf key last)⟩ ∧
        ((sortedMatches key rows pred).take limit).length = limit) := by
  have hfiltrue : (sortedMatches key rows pred).filter (afterOpt key none) =
      sortedMatches key rows pred := filter_eq_self.mpr (fun a _ => rfl)
  have hFlen : (sortedMatches key rows pred).length = (rows.filter pred).length :=
    (sortedMatches_perm key rows pred).length_eq
  constructor
  · intro hexact
    rw [fetchPage_eq_ok key rows pred none limit hl]
    rw [fetchPageT_last key rows pred none limit hid (by rw [hfiltrue]; omega)]
    rw [hfiltrue]
  · intro hmore
    obtain ⟨x, hx, hpage⟩ := fetchPageT_more key rows pred none limit hid hl
      (by rw [hfiltrue]; omega)
    rw [hfiltrue] at hx hpage
    refine ⟨x, hx, ?_, ?_⟩
    · rw [fetchPage_eq_ok key rows pred none limit hl, hpage]
    · rw [length_take]
      omega

/-- Witness for C3: three comments for video 10, page size 2, both branches
of the claim exercised through the `limit + 1` case. -/
theorem page_limit_nextCursor_witness :
    1 ≤ 2 ∧
      idsNodup commentKey
        [⟨1, 10, none, 5, "a", 10⟩, ⟨2, 10, none, 5, "b", 20⟩, ⟨3, 10, none, 5, "c", 30⟩] ∧
      (2 + 1 ≤ ([⟨1, 10, none, 5, "a", 10⟩, ⟨2, 10, none, 5, "b", 20⟩,
          (⟨3, 10, none, 5, "c", 30⟩ : CommentRow)].filter
            (commentsPred [5] 10 none)).length →
        ∃ last,
          ((sortedMatches commentKey
              [⟨1, 10, none, 5, "a", 10⟩, ⟨2, 10, none, 5, "b", 20⟩,
                ⟨3, 10, none, 5, "c", 30⟩]
              (commentsPred [5] 10 none)).take 2).getLast? = some last ∧
          fetchPage commentKey
              [⟨1, 10, none, 5, "a", 10⟩, ⟨2, 10, none, 5, "b", 20⟩,
                ⟨3, 10, none, 5, "c", 30⟩]
              (commentsPred [5] 10 none) none 2 =
            .ok ⟨(sortedMatches commentKey
                [⟨1, 10, none, 5, "a", 10⟩, ⟨2, 10, none, 5, "b", 20⟩,
                  ⟨3, 10, none, 5, "c", 30⟩]
                (commentsPred [5] 10 none)).take 2, some (cursorOf commentKey last)⟩ ∧
          ((sortedMatches commentKey
              [⟨1, 10, none, 5, "a", 10⟩, ⟨2, 10, none, 5, "b", 20⟩,
                ⟨3, 10, none, 5, "c", 30⟩]
              (commentsPred [5] 10 none)).take 2).length = 2) :=
  ⟨by decide, by unfold idsNodup; decide,
    (page_limit_nextCursor commentKey
        [⟨1, 10, none, 5, "a", 10⟩, ⟨2, 10, none, 5, "b", 20⟩, ⟨3, 10, none, 5, "c", 30⟩]
        (commentsPred [5] 10 none) 2 (by decide) (by unfold idsNodup; decide)).2⟩

/-- **C4.** A row whose `updatedAt` is strictly newer than an issued cursor's
`updatedAt` is invisible to a traversal continuing from that cursor: the
fetched page (items and `nextCursor`) over the collection with the row
inserted — at any position — is identical to the page over the collection
without it. -/
theorem insert_ahead_invisible {α : Type} (key : α → Nat × Nat)
    (S1 S3 : List α) (r : α) (pred : α → Bool) (c : Cursor) (limit : Nat)
    (hnew : c.updatedAt < (key r).1) :
    fetchPage key (S1 ++ r :: S3) pred (some c) limit =
      fetchPage key (S1 ++ S3) pred (some c) limit := by
  have hfail : matchRow key pred (some c) r = false := by
    have hk : kLT (key r) (c.updatedAt, c.id) = false := by
      rw [kLT_eq_false_iff]
      left
      exact hnew
    have hm : matchRow key pred (some c) r =
        (pred r && kLT (key r) (c.updatedAt, c.id)) := rfl
    rw [hm, hk, Bool.and_false]
  have hfilter : (S1 ++ r :: S3).filter (matchRow key pred (some c)) =
      (S1 ++ S3).filter (matchRow key pred (some c)) := by
    rw [filter_append, filter_append, filter_cons, hfail]
    simp
  unfold fetchPage pageData
  rw [hfilter]

/-- Witness for C4: a video list with one video behind the cursor; a fresh
video with `updatedAt = 100`, newer than the cursor's `updatedAt = 50`, is
inserted in front. -/
theorem insert_ahead_invisible_witness :
    (50 : Nat) < (videoKey ⟨9, 1, none, Visibility.pub, 100⟩).1 ∧
      fetchPage videoKey
          ([] ++ ⟨9, 1, none, Visibility.pub, 100⟩ ::
            [⟨2, 1, none, Visibility.pub, 40⟩])
          (fun v => v.uploaderId == 1) (some ⟨5, 50⟩) 1 =
        fetchPage videoKey ([] ++ [⟨2, 1, none, Visibility.pub, 40⟩])
          (fun v => v.uploaderId == 1) (some ⟨5, 50⟩) 1 :=
  ⟨by decide,
    insert_ahead_invisible videoKey [] [⟨2, 1, none, Visibility.pub, 40⟩]
      ⟨9, 1, none, Visibility.pub, 100⟩ (fun v => v.uploaderId == 1)
      ⟨5, 50⟩ 1 (by decide)⟩

/-- **C5 counterexample.** `commentsRouter.getMany` with a `parentId` that
matches no existing comment does not fail fast: on a collection holding one
top-level comment for video 10, fetching replies of the nonexistent comment
99 returns an ordinary `ok` result with an empty `items` list, no error. -/
theorem comments_missing_parent_silent_empty :
    commentsGetMany [⟨1, 10, none, 5, "a", 100⟩] [5] 10 (some 99) none 5 =
      .ok (⟨[], none⟩, 0) := by
  rfl

/-- **C5 (amended).** Only `suggestionsRouter.getMany` fails fast: a fetch
whose reference video does not exist yields `NOT_FOUND` before any page is
computed.  `commentsRouter.getMany` performs no existence check on
`parentId`: when no comment carries the requested `parentId`, the call
silently returns an `ok` page with an empty `items` list, `nextCursor =
null` and `totalCount = 0`. -/
theorem notFound_failfast_amended :
    (∀ (videos : List VideoRow) (users : List Nat) (videoId : Nat)
        (c : Option Cursor) (limit : Nat),
      videos.find? (fun v => v.id == videoId) = none →
      suggestionsGetMany videos users videoId c limit = .error .notFound) ∧
    (∀ (comments : List CommentRow) (users : List Nat) (videoId p : Nat)
        (c : Option Cursor) (limit : Nat),
      (∀ cr ∈ comments, cr.parentId ≠ some p) →
      commentsGetMany comments users videoId (some p) c limit =
        .ok (⟨[], none⟩, 0)) := by
  constructor
  · intro videos users videoId c limit hfind
    unfold suggestionsGetMany
    rw [hfind]
  · intro comments users videoId p c limit hnone
    have hpred : ∀ cr ∈ comments, commentsPred users videoId (some p) cr = false := by
      intro cr hcr
      have hne : (cr.parentId == some p) = false := by
        rw [beq_eq_false_iff_ne]
        exact hnone cr hcr
      show ((cr.videoId == videoId && (cr.parentId == some p)) &&
        users.contains cr.userId) = false
      rw [hne]
      simp
    have hfm : comments.filter (matchRow commentKey
        (commentsPred users videoId (some p)) c) = [] := by
      rw [filter_eq_nil_iff]
      intro cr hcr
      unfold matchRow
      rw [hpred cr hcr]
      simp
    have htc : commentsTotalCount comments videoId (some p) = 0 := by
      unfold commentsTotalCount
      rw [length_eq_zero, filter_eq_nil_iff]
      intro cr hcr
      have hne : (cr.parentId == some p) = false := by
        rw [beq_eq_false_iff_ne]
        exact hnone cr hcr
      show ¬(cr.videoId == videoId && (cr.parentId == some p)) = true
      rw [hne]
      simp
    unfold commentsGetMany fetchPage pageData
    rw [hfm]
    have hsort : sortDesc commentKey ([] : List CommentRow) = [] := rfl
    rw [hsort, htc]
    rfl

/-- Witness for C5 (amended): a nonexistent reference video for suggestions,
and a nonexistent parent comment for comment replies. -/
theorem notFound_failfast_amended_witness :
    ([(⟨2, 1, none, Visibility.pub, 40⟩ : VideoRow)].find?
        (fun v => v.id == 7) = none) ∧
      ((∀ cr ∈ [(⟨1, 10, none, 5, "a", 100⟩ : CommentRow)],
          cr.parentId ≠ some 99)) ∧
      suggestionsGetMany [⟨2, 1, none, Visibility.pub, 40⟩] [1] 7 none 5 =
        .error .notFound ∧
      commentsGetMany [⟨1, 10, none, 5, "a", 100⟩] [5] 10 (some 99) (some ⟨3, 30⟩) 5 =
        .ok (⟨[], none⟩, 0) :=
  ⟨by decide, by decide,
    notFound_failfast_amended.1 [⟨2, 1, none, Visibility.pub, 40⟩] [1] 7 none 5
      (by decide),
    notFound_failfast_amended.2 [⟨1, 10, none, 5, "a", 100⟩] [5] 10 99
      (some ⟨3, 30⟩) 5 (by decide)⟩

/-- **C8.** A cursor whose referenced row no longer exists in the collection
is still fully usable: `commentsRouter.getMany` raises no error and its items
are exactly the filter-matching rows whose `(updatedAt, id)` key sorts
strictly after the cursor key, up to `limit` — the comparison is purely
positional and performs no existence check on the referenced row. -/
theorem deleted_cursor_positional
    (comments : List CommentRow) (users : List Nat) (videoId : Nat)
    (parentId : Option Nat) (c : Cursor) (limit : Nat)
    (hl : 1 ≤ limit) (hid : idsNodup commentKey comments)
    (_hdel : ∀ cr ∈ comments, ¬(cr.id = c.id ∧ cr.updatedAt = c.updatedAt)) :
    commentsGetMany comments users videoId parentId (some c) limit =
      .ok (fetchPageT commentKey comments (commentsPred users videoId parentId)
            (some c) limit,
          commentsTotalCount comments videoId parentId) ∧
    (fetchPageT commentKey comments (commentsPred users videoId parentId)
        (some c) limit).items =
      ((sortedMatches commentKey comments (commentsPred users videoId parentId)).filter
        (afterCursor commentKey c)).take limit := by
  constructor
  · unfold commentsGetMany
    rw [fetchPage_eq_ok commentKey comments (commentsPred users videoId parentId)
      (some c) limit hl]
    rfl
  · have h := fetchPageT_items commentKey comments
      (commentsPred users videoId parentId) (some c) limit hid hl
    rw [h]
    rfl

/-- Witness for C8: the cursor `{id := 3, updatedAt := 30}` references a row
that is absent from the collection; the fetch still succeeds and returns the
single comment sorting after it. -/
theorem deleted_cursor_positional_witness :
    1 ≤ 5 ∧
      idsNodup commentKey [⟨1, 10, none, 5, "a", 20⟩, ⟨2, 10, none, 5, "b", 40⟩] ∧
      (∀ cr ∈ [(⟨1, 10, none, 5, "a", 20⟩ : CommentRow), ⟨2, 10, none, 5, "b", 40⟩],
        ¬(cr.id = 3 ∧ cr.updatedAt = 30)) ∧
      (commentsGetMany [⟨1, 10, none, 5, "a", 20⟩, ⟨2, 10, none, 5, "b", 40⟩]
          [5] 10 none (some ⟨3, 30⟩) 5 =
        .ok (fetchPageT commentKey
              [⟨1, 10, none, 5, "a", 20⟩, ⟨2, 10, none, 5, "b", 40⟩]
              (commentsPred [5] 10 none) (some ⟨3, 30⟩) 5,
            commentsTotalCount
              [⟨1, 10, none, 5, "a", 20⟩, ⟨2, 10, none, 5, "b", 40⟩] 10 none) ∧
        (fetchPageT commentKey [⟨1, 10, none, 5, "a", 20⟩, ⟨2, 10, none, 5, "b", 40⟩]
            (commentsPred [5] 10 none) (some ⟨3, 30⟩) 5).items =
          ((sortedMatches commentKey
              [⟨1, 10, none, 5, "a", 20⟩, ⟨2, 10, none, 5, "b", 40⟩]
              (commentsPred [5] 10 none)).filter
            (afterCursor commentKey ⟨3, 30⟩)).take 5) :=
  ⟨by decide, by unfold idsNodup; decide, by decide,
    deleted_cursor_positional
      [⟨1, 10, none, 5, "a", 20⟩, ⟨2, 10, none, 5, "b", 40⟩] [5] 10 none
      ⟨3, 30⟩ 5 (by decide) (by unfold idsNodup; decide) (by decide)⟩

/-- **C9.** When the reference video exists but has a null `categoryId`, no
category restriction at all is applied to the suggestion query: the call is
identical to a fetch whose predicate only requires public visibility,
exclusion of the reference video's own id, and an existing uploader — and the
matching row set is the same category-agnostic set. -/
theorem null_category_unrestricted
    (videos : List VideoRow) (users : List Nat) (videoId : Nat)
    (ev : VideoRow) (c : Option Cursor) (limit : Nat)
    (hfind : videos.find? (fun v => v.id == videoId) = some ev)
    (hcat : ev.categoryId = none) :
    suggestionsGetMany videos users videoId c limit =
      fetchPage videoKey videos
        (fun v => (v.visibility == Visibility.pub) && !(v.id == videoId) &&
          users.contains v.uploaderId) c limit ∧
    videos.filter (suggestionsPred users videoId ev.categoryId) =
      videos.filter (fun v => (v.visibility == Visibility.pub) &&
        !(v.id == videoId) && users.contains v.uploaderId) := by
  have hpred : suggestionsPred users videoId ev.categoryId =
      (fun v => (v.visibility == Visibility.pub) && !(v.id == videoId) &&
        users.contains v.uploaderId) := by
    funext v
    unfold suggestionsPred
    rw [hcat]
    simp
  constructor
  · unfold suggestionsGetMany
    rw [hfind]
    show fetchPage videoKey videos (suggestionsPred users videoId ev.categoryId)
        c limit = _
    rw [hpred]
  · rw [hpred]

/-- Witness for C9: the reference video 7 has no category; a category-1 video
and a category-less video are both part of the category-agnostic suggestion
set. -/
theorem null_category_unrestricted_witness :
    ([(⟨7, 1, none, Visibility.pub, 50⟩ : VideoRow),
        ⟨2, 1, some 1, Visibility.pub, 40⟩,
        ⟨3, 1, none, Visibility.pub, 30⟩].find? (fun v => v.id == 7) =
      some ⟨7, 1, none, Visibility.pub, 50⟩) ∧
      ((⟨7, 1, none, Visibility.pub, 50⟩ : VideoRow).categoryId = none) ∧
      (suggestionsGetMany
          [⟨7, 1, none, Visibility.pub, 50⟩, ⟨2, 1, some 1, Visibility.pub, 40⟩,
            ⟨3, 1, none, Visibility.pub, 30⟩] [1] 7 none 5 =
        fetchPage videoKey
          [⟨7, 1, none, Visibility.pub, 50⟩, ⟨2, 1, some 1, Visibility.pub, 40⟩,
            ⟨3, 1, none, Visibility.pub, 30⟩]
          (fun v => (v.visibility == Visibility.pub) && !(v.id == 7) &&
            [1].contains v.uploaderId) none 5 ∧
        [⟨7, 1, none, Visibility.pub, 50⟩, ⟨2, 1, some 1, Visibility.pub, 40⟩,
            (⟨3, 1, none, Visibility.pub, 30⟩ : VideoRow)].filter
          (suggestionsPred [1] 7 (⟨7, 1, none, Visibility.pub, 50⟩ : VideoRow).categoryId) =
        [⟨7, 1, none, Visibility.pub, 50⟩, ⟨2, 1, some 1, Visibility.pub, 40⟩,
            (⟨3, 1, none, Visibility.pub, 30⟩ : VideoRow)].filter
          (fun v => (v.visibility == Visibility.pub) && !(v.id == 7) &&
            [1].contains v.uploaderId)) :=
  ⟨by decide, by decide,
    null_category_unrestricted
      [⟨7, 1, none, Visibility.pub, 50⟩, ⟨2, 1, some 1, Visibility.pub, 40⟩,
        ⟨3, 1, none, Visibility.pub, 30⟩] [1] 7
      ⟨7, 1, none, Visibility.pub, 50⟩ none 5 (by decide) (by decide)⟩

/-- **C6 counterexample.** The trigger is not edge-detected on visibility:
along `steadyVisibleTrace` the sentinel makes exactly one not-visible →
visible transition, yet `fetchNextPage` is invoked twice — the effect
re-fires when the fetch completes while the sentinel stays visible, because
`isFetchingNextPage` is part of the dependency array.  So the number of page
requests is not bounded by the number of visibility transitions. -/
theorem infiniteScroll_two_fetches_one_transition :
    (invocations none steadyVisibleTrace).length = 2 ∧
      visTransitions false steadyVisibleTrace = 1 ∧
      ¬((invocations none steadyVisibleTrace).length ≤
        visTransitions false steadyVisibleTrace) := by
  refine ⟨by decide, by decide, by decide⟩

/-- **C6 (amended).** In automatic mode the trigger never invokes
`fetchNextPage` while a fetch is in flight, when `hasNextPage` is false,
when the sentinel is not visible, or in manual mode; and while the
dependency snapshot does not change, no further invocation occurs (the
effect is edge-detected on dependency changes, not on visibility
transitions: a fetch completing under a still-visible sentinel re-fires
it). -/
theorem infiniteScroll_guarded_edge :
    (∀ (prev : Option ScrollProps) (trace : List ScrollProps) (p : ScrollProps),
      p ∈ invocations prev trace →
      p.isIntersecting = true ∧ p.hasNextPage = true ∧
        p.isFetchingNextPage = false ∧ p.isManual = false) ∧
    (∀ (p : ScrollProps) (n : Nat),
      invocations (some p) (List.replicate n p) = []) := by
  constructor
  · intro prev trace
    induction trace generalizing prev with
    | nil =>
      intro p hp
      simp [invocations] at hp
    | cons q rest ih =>
      intro p hp
      have hguard : scrollGuard p = true → p.isIntersecting = true ∧
          p.hasNextPage = true ∧ p.isFetchingNextPage = false ∧
          p.isManual = false := by
        intro hg
        unfold scrollGuard at hg
        simp at hg
        exact ⟨hg.1.1.1, hg.1.1.2, hg.1.2, hg.2⟩
      cases prev with
      | none =>
        rw [show invocations none (q :: rest) =
          (if scrollGuard q then [q] else []) ++ invocations (some q) rest from rfl]
          at hp
        rcases mem_append.mp hp with hh | ht
        · by_cases hg : scrollGuard q = true
          · rw [if_pos hg] at hh
            rcases mem_singleton.mp hh with rfl
            exact hguard hg
          · rw [if_neg hg] at hh
            simp at hh
        · exact ih (some q) p ht
      | some q0 =>
        rw [show invocations (some q0) (q :: rest) =
          (if (q != q0) && scrollGuard q then [q] else []) ++
            invocations (some q) rest from rfl] at hp
        rcases mem_append.mp hp with hh | ht
        · by_cases hg : ((q != q0) && scrollGuard q) = true
          · rw [if_pos hg] at hh
            rcases mem_singleton.mp hh with rfl
            exact hguard (Bool.and_elim_right hg)
          · rw [if_neg hg] at hh
            simp at hh
        · exact ih (some q) p ht
  · intro p n
    induction n with
    | zero => rfl
    | succ m ih =>
      rw [List.replicate_succ]
      rw [show invocations (some p) (p :: List.replicate m p) =
        (if (p != p) && scrollGuard p then [p] else []) ++
          invocations (some p) (List.replicate m p) from rfl]
      rw [bne_self_eq_false, Bool.false_and, if_neg (by simp)]
      rw [ih]
      rfl

/-- Witness for C6 (amended): the first snapshot of `steadyVisibleTrace` is
an invocation, and the guard facts hold at it; a steady snapshot produces no
further invocations. -/
theorem infiniteScroll_guarded_edge_witness :
    ((⟨false, true, false, true⟩ : ScrollProps) ∈
        invocations none steadyVisibleTrace) ∧
      ((⟨false, true, false, true⟩ : ScrollProps).isIntersecting = true ∧
        (⟨false, true, false, true⟩ : ScrollProps).hasNextPage = true ∧
        (⟨false, true, false, true⟩ : ScrollProps).isFetchingNextPage = false ∧
        (⟨false, true, false, true⟩ : ScrollProps).isManual = false) ∧
      invocations (some ⟨false, true, false, true⟩)
        (List.replicate 3 ⟨false, true, false, true⟩) = [] :=
  ⟨by decide,
    infiniteScroll_guarded_edge.1 none steadyVisibleTrace
      ⟨false, true, false, true⟩ (by decide),
    infiniteScroll_guarded_edge.2 ⟨false, true, false, true⟩ 3⟩

/-- **C7.** Creating a comment whose `parentId` refers to an existing comment
that itself has a non-null `parentId` fails with `BAD_REQUEST`; an error
outcome carries no new collection state, and every successful create
preserves the two-level shape of the reply tree (fresh id, unique ids). -/
theorem reply_to_reply_rejected :
    (∀ (comments : List CommentRow) (userId videoId : Nat) (content : String)
        (p q : Nat) (parent : CommentRow) (newId now : Nat),
      comments.find? (fun cr => cr.id == p) = some parent →
      parent.parentId = some q →
      commentsCreate comments userId videoId content (some p) newId now =
        .error .badRequest) ∧
    (∀ (comments : List CommentRow) (userId videoId : Nat) (content : String)
        (parentId : Option Nat) (newId now : Nat) (st : List CommentRow),
      (comments.map (fun cr => cr.id)).Nodup →
      newId ∉ comments.map (fun cr => cr.id) →
      (∀ cr ∈ comments, cr.parentId ≠ some newId) →
      twoLevel comments →
      commentsCreate comments userId videoId content parentId newId now = .ok st →
      twoLevel st) := by
  have hfs : ∀ (comments : List CommentRow) (p : Nat),
      findParent comments (some p) = comments.find? (fun cr => cr.id == p) :=
    fun _ _ => rfl
  constructor
  · intro comments userId videoId content p q parent newId now hfind hq
    unfold commentsCreate
    rw [hfs, hfind]
    simp [hq]
  · intro comments userId videoId content parentId newId now st hnodup hfresh hnoref hinv hok
    cases parentId with
    | none =>
      have hcc : commentsCreate comments userId videoId content none newId now =
          .ok (comments ++ [⟨newId, videoId, none, userId, content, now⟩]) := rfl
      rw [hcc] at hok
      have hst : st = comments ++ [⟨newId, videoId, none, userId, content, now⟩] :=
        (Except.ok.inj hok).symm
      subst hst
      intro c hc pp hpp pc hpc hpcid
      rcases mem_append.mp hc with hcold | hcnew
      · rcases mem_append.mp hpc with hpcold | hpcnew
        · exact hinv c hcold pp hpp pc hpcold hpcid
        · rcases mem_singleton.mp hpcnew with rfl
          exfalso
          apply hnoref c hcold
          have hnid : newId = pp := hpcid
          rw [hpp, ← hnid]
      · rcases mem_singleton.mp hcnew with rfl
        exact absurd hpp (by simp)
    | some p =>
      rcases hfp : comments.find? (fun cr => cr.id == p) with _ | parent
      · have hcc : commentsCreate comments userId videoId content (some p) newId now =
            .error .notFound := by
          unfold commentsCreate
          rw [hfs, hfp]
          simp
        rw [hcc] at hok
        exact absurd hok (by simp)
      · have hpmem : parent ∈ comments := mem_of_find?_eq_some hfp
        have hpid : parent.id = p := by
          have := find?_some hfp
          exact beq_iff_eq.mp this
        cases hpp0 : parent.parentId with
        | some q =>
          have hcc : commentsCreate comments userId videoId content (some p) newId now =
              .error .badRequest := by
            unfold commentsCreate
            rw [hfs, hfp]
            simp [hpp0]
          rw [hcc] at hok
          exact absurd hok (by simp)
        | none =>
          have hcc : commentsCreate comments userId videoId content (some p) newId now =
              .ok (comments ++ [⟨newId, videoId, some p, userId, content, now⟩]) := by
            unfold commentsCreate
            rw [hfs, hfp]
            simp [hpp0]
          rw [hcc] at hok
          have hst : st = comments ++ [⟨newId, videoId, some p, userId, content, now⟩] :=
            (Except.ok.inj hok).symm
          subst hst
          intro c hc pp hpp pc hpc hpcid
          rcases mem_append.mp hc with hcold | hcnew
          · rcases mem_append.mp hpc with hpcold | hpcnew
            · exact hinv c hcold pp hpp pc hpcold hpcid
            · rcases mem_singleton.mp hpcnew with rfl
              exfalso
              apply hnoref c hcold
              have hnid : newId = pp := hpcid
              rw [hpp, ← hnid]
          · rcases mem_singleton.mp hcnew with rfl
            have hppeq : p = pp := Option.some.inj (show some p = some pp from hpp)
            rcases mem_append.mp hpc with hpcold | hpcnew
            · have hpc_eq : pc = parent := by
                apply inj_on_of_nodup_map hnodup hpcold hpmem
                rw [hpcid, hpid]
                exact hppeq.symm
              rw [hpc_eq, hpp0]
            · rcases mem_singleton.mp hpcnew with rfl
              exfalso
              apply hfresh
              have hnid : newId = pp := hpcid
              rw [hnid, ← hppeq, ← hpid]
              exact mem_map_of_mem (fun cr => cr.id) hpmem

/-- Witness for C7: a top-level comment 1 with reply 2; replying to the reply
is rejected, and a legitimate reply to comment 1 preserves the two-level
invariant. -/
theorem reply_to_reply_rejected_witness :
    ([(⟨1, 10, none, 5, "top", 50⟩ : CommentRow), ⟨2, 10, some 1, 5, "re", 60⟩].find?
        (fun cr => cr.id == 2) = some ⟨2, 10, some 1, 5, "re", 60⟩) ∧
      ((⟨2, 10, some 1, 5, "re", 60⟩ : CommentRow).parentId = some 1) ∧
      commentsCreate [⟨1, 10, none, 5, "top", 50⟩, ⟨2, 10, some 1, 5, "re", 60⟩]
          5 10 "re-re" (some 2) 3 70 =
        .error .badRequest :=
  ⟨by decide, by decide,
    reply_to_reply_rejected.1
      [⟨1, 10, none, 5, "top", 50⟩, ⟨2, 10, some 1, 5, "re", 60⟩]
      5 10 "re-re" 2 1 ⟨2, 10, some 1, 5, "re", 60⟩ 3 70 (by decide) (by decide)⟩

/-- **C10.** Whenever `hasMore` is computed as true (the query returned
`limit + 1` rows with `limit ≥ 1`), the trimmed items list is non-empty, so
`items[items.length - 1]` denotes a defined row; consequently none of the
three `getMany` implementations can fail with the `TypeError` of reading a
property of an undefined last item (and when `hasMore` is false the last
item is not used to build a cursor at all). -/
theorem lastItem_always_defined :
    (∀ (α : Type) (key : α → Nat × Nat) (rows : List α) (pred : α → Bool)
        (c : Option Cursor) (limit : Nat), 1 ≤ limit →
      limit < (pageData key rows pred c limit).length →
      (fetchPageT key rows pred c limit).items ≠ []) ∧
    (∀ (comments : List CommentRow) (users : List Nat) (videoId : Nat)
        (parentId : Option Nat) (c : Option Cursor) (limit : Nat), 1 ≤ limit →
      commentsGetMany comments users videoId parentId c limit ≠
        .error .typeError) ∧
    (∀ (videos : List VideoRow) (userId : Nat) (c : Option Cursor) (limit : Nat),
      1 ≤ limit → studioGetMany videos userId c limit ≠ .error .typeError) ∧
    (∀ (videos : List VideoRow) (users : List Nat) (videoId : Nat)
        (c : Option Cursor) (limit : Nat), 1 ≤ limit →
      suggestionsGetMany videos users videoId c limit ≠ .error .typeError) := by
  refine ⟨?_, ?_, ?_, ?_⟩
  · intro α key rows pred c limit hl hmore
    unfold fetchPageT
    rw [if_pos hmore]
    show (pageData key rows pred c limit).dropLast ≠ []
    intro hq
    have h1 : (pageData key rows pred c limit).dropLast.length =
        (pageData key rows pred c limit).length - 1 := length_dropLast _
    rw [hq] at h1
    simp at h1
    omega
  · intro comments users videoId parentId c limit hl
    unfold commentsGetMany
    rw [fetchPage_eq_ok commentKey comments (commentsPred users videoId parentId)
      c limit hl]
    simp [Except.map]
  · intro videos userId c limit hl
    unfold studioGetMany
    rw [fetchPage_eq_ok videoKey videos (fun v => v.uploaderId == userId) c limit hl]
    simp
  · intro videos users videoId c limit hl
    unfold suggestionsGetMany
    rcases hf : videos.find? (fun v => v.id == videoId) with _ | ev
    · rw [hf]
      simp
    · rw [hf]
      show fetchPage videoKey videos (suggestionsPred users videoId ev.categoryId)
          c limit ≠ .error .typeError
      rw [fetchPage_eq_ok videoKey videos
        (suggestionsPred users videoId ev.categoryId) c limit hl]
      simp

/-- Witness for C10 at concrete inputs: a two-comment page of size 1 has a
defined last item, and all three routers return without a `TypeError`. -/
theorem lastItem_always_defined_witness :
    1 ≤ 1 ∧
      1 < (pageData commentKey
        [⟨1, 10, none, 5, "a", 20⟩, ⟨2, 10, none, 5, "b", 40⟩]
        (commentsPred [5] 10 none) none 1).length ∧
      (fetchPageT commentKey [⟨1, 10, none, 5, "a", 20⟩, ⟨2, 10, none, 5, "b", 40⟩]
        (commentsPred [5] 10 none) none 1).items ≠ [] ∧
      commentsGetMany [⟨1, 10, none, 5, "a", 20⟩, ⟨2, 10, none, 5, "b", 40⟩]
        [5] 10 none none 1 ≠ .error .typeError ∧
      studioGetMany [⟨2, 1, none, Visibility.pub, 40⟩] 1 none 1 ≠
        .error .typeError ∧
      suggestionsGetMany [⟨2, 1, none, Visibility.pub, 40⟩] [1] 2 none 1 ≠
        .error .typeError :=
  ⟨by decide, by decide,
    lastItem_always_defined.1 CommentRow commentKey
      [⟨1, 10, none, 5, "a", 20⟩, ⟨2, 10, none, 5, "b", 40⟩]
      (commentsPred [5] 10 none) none 1 (by decide) (by decide),
    lastItem_always_defined.2.1 [⟨1, 10, none, 5, "a", 20⟩, ⟨2, 10, none, 5, "b", 40⟩]
      [5] 10 none none 1 (by decide),
    lastItem_always_defined.2.2.1 [⟨2, 1, none, Visibility.pub, 40⟩] 1 none 1
      (by decide),
    lastItem_always_defined.2.2.2 [⟨2, 1, none, Visibility.pub, 40⟩] [1] 2 none 1
      (by decide)⟩

end YTClone
